import Mathlib

/-!
Verification of the BHR file-based routing core.

Shallow embedding of `src/lib/route-utils.ts` and `src/lib/file-router.ts`.
JavaScript strings are modelled as `List Char`; the anchored regex replaces
of the source are modelled as explicit recursive scans with the same
left-to-right, leftmost-match, resume-after-match semantics as the
JavaScript global `String.replace`.  Functions carry the source names with
an `L` suffix marking the `List Char` level.
-/

set_option maxRecDepth 4096

/-- One-character separator split, the semantics of the JavaScript
`String.prototype.split` with a single-character separator:
`"".split(c)` is `[""]`, separators delimit (possibly empty) pieces. -/
def splitOnChar (c : Char) : List Char → List (List Char)
  | [] => [[]]
  | d :: ds =>
    match splitOnChar c ds with
    | [] => [[]]
    | r :: rs => if d = c then [] :: r :: rs else (d :: r) :: rs

/-- `Array.prototype.join` with a separator: pieces interleaved with `sep`. -/
def joinSep (sep : List Char) : List (List Char) → List Char
  | [] => []
  | [p] => p
  | p :: q :: rest => p ++ sep ++ joinSep sep (q :: rest)

/-- `.replace(/\\/g, "/")` — Windows path normalisation (route-utils line 53,
file-router line 411). -/
def mapBackslash (s : List Char) : List Char :=
  s.map (fun c => if c = '\\' then '/' else c)

/-- Remove a final suffix from a character list (`s.take (length - n)`). -/
def dropSuffixN (n : Nat) (s : List Char) : List Char :=
  s.take (s.length - n)

/-- `.replace(/\.(ts|tsx|js|jsx)$/, "")` — the four alternatives are
mutually exclusive as anchored suffixes, so one conditional strip each. -/
def stripExt (s : List Char) : List Char :=
  if ".ts".data.isSuffixOf s then dropSuffixN 3 s
  else if ".tsx".data.isSuffixOf s then dropSuffixN 4 s
  else if ".js".data.isSuffixOf s then dropSuffixN 3 s
  else if ".jsx".data.isSuffixOf s then dropSuffixN 4 s
  else s

/-- `.replace(/\/(page|route|layout)$/, "")` (route-utils line 55): one
anchored replace over three mutually exclusive suffix alternatives. -/
def stripRole (s : List Char) : List Char :=
  if "/page".data.isSuffixOf s then dropSuffixN 5 s
  else if "/route".data.isSuffixOf s then dropSuffixN 6 s
  else if "/layout".data.isSuffixOf s then dropSuffixN 7 s
  else s

/-- The `cleanPath` computation of `parseFilePath` (route-utils lines 52–55). -/
def cleanPath (filePath : List Char) : List Char :=
  stripRole (stripExt (mapBackslash filePath))

/-- The `type` field of `RouteSegment` (route-utils line 22). -/
inductive SegType
  | static
  | dynamic
  | wildcard
  | group
deriving DecidableEq, Repr

/-- `RouteSegment` (route-utils lines 21–25); `param` is present exactly on
dynamic and wildcard segments. -/
structure RouteSegment where
  type : SegType
  value : List Char
  param : Option (List Char)
deriving DecidableEq, Repr

/-- `ParsedRoute` (route-utils lines 14–19). -/
structure ParsedRoute where
  segments : List RouteSegment
  params : List (List Char)
  isDynamic : Bool
  isWildcard : Bool
deriving DecidableEq, Repr

/-- The per-token classification of the `parseFilePath` loop body
(route-utils lines 60–98). -/
def classifySegment (segment : List Char) : RouteSegment :=
  if ['('].isPrefixOf segment ∧ [')'].isSuffixOf segment then
    ⟨SegType.group, (segment.drop 1).dropLast, none⟩
  else if ['['].isPrefixOf segment ∧ [']'].isSuffixOf segment then
    let paramContent := (segment.drop 1).dropLast
    if ['.', '.', '.'].isPrefixOf paramContent then
      ⟨SegType.wildcard, segment, some (paramContent.drop 3)⟩
    else
      ⟨SegType.dynamic, segment, some paramContent⟩
  else
    ⟨SegType.static, segment, none⟩

/-- The `params.push` behaviour of the loop: dynamic and wildcard segments
contribute their parameter name, in order. -/
def paramOfSeg (s : RouteSegment) : Option (List Char) :=
  match s.type with
  | SegType.dynamic => some (s.param.getD [])
  | SegType.wildcard => some (s.param.getD [])
  | _ => none

/-- One iteration of the `parseFilePath` loop, appending to the
accumulated `ParsedRoute`. -/
def parseStep (acc : ParsedRoute) (segment : List Char) : ParsedRoute :=
  let s := classifySegment segment
  { segments := acc.segments ++ [s]
    params := acc.params ++ (paramOfSeg s).toList
    isDynamic := acc.isDynamic || decide (s.type = SegType.dynamic)
      || decide (s.type = SegType.wildcard)
    isWildcard := acc.isWildcard || decide (s.type = SegType.wildcard) }

/-- `parseFilePath` (route-utils lines 45–106): clean the path, split on
`/`, drop empty tokens (`filter(Boolean)`), classify each token. -/
def parseFilePathL (filePath : List Char) : ParsedRoute :=
  (((splitOnChar '/' (cleanPath filePath)).filter
      (fun s => decide (s ≠ []))).foldl parseStep ⟨[], [], false, false⟩)

/-- Rendering of one segment in `filePathToRoute` (route-utils lines
116–126): dynamic becomes a `:`-parameter, wildcard a `*`-wildcard,
static keeps its literal. -/
def renderSeg (s : RouteSegment) : List Char :=
  match s.type with
  | SegType.dynamic => ':' :: s.param.getD []
  | SegType.wildcard => '*' :: s.param.getD []
  | _ => s.value

/-- `route.replace(/\/$/, "")` — drop one trailing slash. -/
def stripTrailingSlash (s : List Char) : List Char :=
  if ['/'].isSuffixOf s then s.dropLast else s

/-- `filePathToRoute` (route-utils lines 111–132). -/
def filePathToRouteL (filePath : List Char) : List Char :=
  let parsed := parseFilePathL filePath
  let routeSegments :=
    (parsed.segments.filter (fun s => decide (s.type ≠ SegType.group))).map renderSeg
  let route := '/' :: joinSep ['/'] routeSegments
  if route = ['/'] then ['/'] else stripTrailingSlash route

/-- `calculateRoutePriority` (route-utils lines 137–153): 1000, plus 10 per
nonempty `/`-separated segment, minus 100 per `:` character, minus 200 per
`*` character. -/
def calculateRoutePriorityL (route : List Char) : Int :=
  1000 + 10 * (((splitOnChar '/' route).filter (fun s => decide (s ≠ []))).length : Int)
    - 100 * (route.count ':' : Int) - 200 * (route.count '*' : Int)

/-- `BHRFileRouter.calculatePriority` (file-router lines 454–467): 1000,
minus 100 per `:` or `*` character, plus 10 per `split("/")` part
(empty parts included). -/
def calculatePriorityL (routePath : List Char) : Int :=
  1000 - 100 * ((routePath.count ':' : Int) + (routePath.count '*' : Int))
    + 10 * ((splitOnChar '/' routePath).length : Int)

/-- Global replace `/\[([^\]]+)\]/g → ":$1"` (file-router line 416): at a
`[`, take the maximal run of non-`]` characters; when the run is nonempty
and followed by `]`, rewrite to `:run` and resume after the match,
otherwise advance one character.  The fuel argument only bounds the
recursion: every step consumes at least one input character, so fuel equal
to the input length is never exhausted. -/
def replBracketF : Nat → List Char → List Char
  | _, [] => []
  | 0, s => s
  | fuel + 1, '[' :: rest =>
    let run := rest.takeWhile (fun c => decide (c ≠ ']'))
    let after := rest.drop run.length
    if run ≠ [] ∧ after.head? = some ']' then
      ':' :: run ++ replBracketF fuel (after.drop 1)
    else
      '[' :: replBracketF fuel rest
  | fuel + 1, c :: rest => c :: replBracketF fuel rest

def replBracket (s : List Char) : List Char := replBracketF s.length s

/-- Global replace `/\[\.\.\.([^\]]+)\]/g → "*$1"` (file-router line 417). -/
def replBracketDotsF : Nat → List Char → List Char
  | _, [] => []
  | 0, s => s
  | fuel + 1, '[' :: '.' :: '.' :: '.' :: rest =>
    let run := rest.takeWhile (fun c => decide (c ≠ ']'))
    let after := rest.drop run.length
    if run ≠ [] ∧ after.head? = some ']' then
      '*' :: run ++ replBracketDotsF fuel (after.drop 1)
    else
      '[' :: replBracketDotsF fuel ('.' :: '.' :: '.' :: rest)
  | fuel + 1, c :: rest => c :: replBracketDotsF fuel rest

def replBracketDots (s : List Char) : List Char := replBracketDotsF s.length s

/-- Global replace `/\/\([^)]+\)/g → ""` (file-router line 420): a group is
elided only when preceded by `/`. -/
def replGroupF : Nat → List Char → List Char
  | _, [] => []
  | 0, s => s
  | fuel + 1, '/' :: '(' :: rest =>
    let run := rest.takeWhile (fun c => decide (c ≠ ')'))
    let after := rest.drop run.length
    if run ≠ [] ∧ after.head? = some ')' then
      replGroupF fuel (after.drop 1)
    else
      '/' :: replGroupF fuel ('(' :: rest)
  | fuel + 1, c :: rest => c :: replGroupF fuel rest

def replGroup (s : List Char) : List Char := replGroupF s.length s

/-- `BHRFileRouter.convertFilePathToRoute` (file-router lines 409–439):
normalise, strip `/page`, `/route`, `/index` suffixes in sequence, convert
brackets, elide `/(...)` groups, special-case `page`, prepend `/`, strip a
trailing slash. -/
def convertFilePathToRouteL (relativePath : List Char) : List Char :=
  let r0 := mapBackslash relativePath
  let r1 := stripExt r0
  let r2 := if "/page".data.isSuffixOf r1 then dropSuffixN 5 r1 else r1
  let r3 := if "/route".data.isSuffixOf r2 then dropSuffixN 6 r2 else r2
  let r4 := if "/index".data.isSuffixOf r3 then dropSuffixN 6 r3 else r3
  let r5 := replBracketDots (replBracket r4)
  let r6 := replGroup r5
  if r6 = "page".data ∨ r6 = "/page".data then ['/']
  else
    let r7 := if ['/'].isPrefixOf r6 then r6 else '/' :: r6
    if r7 = ['/'] then ['/'] else stripTrailingSlash r7

/-- `path.replace(/\//g, "\\/")` — the first step of
`RouteMatcher.addRoute` (route-utils line 317). -/
def escapeSlash (s : List Char) : List Char :=
  s.flatMap (fun c => if c = '/' then ['\\', '/'] else [c])

/-- Global replace `/:([^\/]+)/g` with `"([^/]+)"`, pushing each captured
name (route-utils lines 318–321).  Returns the rewritten pattern together
with the pushed parameter names in push order. -/
def replColonF : Nat → List Char → List Char × List (List Char)
  | _, [] => ([], [])
  | 0, s => (s, [])
  | fuel + 1, ':' :: rest =>
    let run := rest.takeWhile (fun c => decide (c ≠ '/'))
    if run ≠ [] then
      let r := replColonF fuel (rest.drop run.length)
      ("([^/]+)".data ++ r.1, run :: r.2)
    else
      let r := replColonF fuel rest
      (':' :: r.1, r.2)
  | fuel + 1, c :: rest =>
    let r := replColonF fuel rest
    (c :: r.1, r.2)

def replColon (s : List Char) : List Char × List (List Char) :=
  replColonF s.length s

/-- Global replace `/\*([^\/]*)/g` with `"(.*)"`, pushing each nonempty
captured name (route-utils lines 322–325). -/
def replStarF : Nat → List Char → List Char × List (List Char)
  | _, [] => ([], [])
  | 0, s => (s, [])
  | fuel + 1, '*' :: rest =>
    let run := rest.takeWhile (fun c => decide (c ≠ '/'))
    let r := replStarF fuel (rest.drop run.length)
    ("(.*)".data ++ r.1, if run ≠ [] then run :: r.2 else r.2)
  | fuel + 1, c :: rest =>
    let r := replStarF fuel rest
    (c :: r.1, r.2)

def replStar (s : List Char) : List Char × List (List Char) :=
  replStarF s.length s

/-- Tokens of the regular expressions produced by `addRoute`: escaped or
plain literal characters, the dynamic group `([^/]+)`, and the wildcard
group `(.*)`. -/
inductive RTok
  | lit (c : Char)
  | seg
  | star
deriving DecidableEq, Repr

/-- Reading the produced regex source back into tokens: `\c` is the
literal `c`, `([^/]+)` and `(.*)` are the two group forms, and any other
character stands for itself (the route patterns contain no further regex
metacharacters). -/
def parseRegex : List Char → List RTok
  | [] => []
  | '\\' :: c :: rest => RTok.lit c :: parseRegex rest
  | '(' :: '[' :: '^' :: '/' :: ']' :: '+' :: ')' :: rest => RTok.seg :: parseRegex rest
  | '(' :: '.' :: '*' :: ')' :: rest => RTok.star :: parseRegex rest
  | c :: rest => RTok.lit c :: parseRegex rest

/-- Try `f n`, `f (n-1)`, …, `f 0`, returning the first `some`. -/
def firstSome {α : Type} (f : Nat → Option α) : Nat → Option α
  | 0 => f 0
  | n + 1 => (f (n + 1)).orElse (fun _ => firstSome f n)

/-- Anchored greedy backtracking match of a token list against a request
path, returning the list of group captures in group order — the semantics
of `path.match(new RegExp("^" + pattern + "$"))` for the fragment produced
by `addRoute`: `([^/]+)` takes one or more non-`/` characters, `(.*)`
takes any characters, both greedily with backtracking. -/
def rmatch : List RTok → List Char → Option (List (List Char))
  | [], ds => if ds = [] then some [] else none
  | RTok.lit c :: ts, ds =>
    match ds with
    | [] => none
    | d :: ds' => if c = d then rmatch ts ds' else none
  | RTok.seg :: ts, ds =>
    firstSome (fun i =>
      if 1 ≤ i ∧ ¬ '/' ∈ ds.take i then
        (rmatch ts (ds.drop i)).map (fun caps => ds.take i :: caps)
      else none) ds.length
  | RTok.star :: ts, ds =>
    firstSome (fun i =>
      (rmatch ts (ds.drop i)).map (fun caps => ds.take i :: caps)) ds.length

/-- One entry of `RouteMatcher.routes` (route-utils lines 309–310, 327–330):
the original path key, the compiled pattern, and the pushed parameter
names. -/
structure RMEntry where
  path : List Char
  regex : List RTok
  params : List (List Char)
deriving DecidableEq, Repr

/-- `RouteMatcher.addRoute` (route-utils lines 312–331): escape slashes,
rewrite `:name` groups, rewrite `*name` groups (names pushed in that
order), compile. -/
def addRoute (path : List Char) : RMEntry :=
  let esc := escapeSlash path
  let c := replColon esc
  let s := replStar c.1
  ⟨path, parseRegex s.1, c.2 ++ s.2⟩

/-- A bound parameter value: a plain string or, for catch-alls, an ordered
list of strings (`RouteParams`, route-utils lines 10–12). -/
inductive ParamVal
  | str (v : List Char)
  | arr (vs : List (List Char))
deriving DecidableEq, Repr

/-- The result of `RouteMatcher.match` (route-utils line 333). -/
structure MatchResult where
  route : List Char
  params : List (List Char × ParamVal)
deriving DecidableEq, Repr

/-- JavaScript `String.prototype.includes`: the needle occurs as a
contiguous substring of the haystack. -/
def hasSubstr (needle : List Char) : List Char → Bool
  | [] => needle == []
  | c :: rest => needle.isPrefixOf (c :: rest) || hasSubstr needle rest

/-- The parameter-extraction loop of `RouteMatcher.match` (route-utils
lines 337–349): the i-th pushed name takes the i-th capture; a name whose
`*name` form occurs in the route path is split on `/` and filtered to the
nonempty pieces. -/
def buildParams (routePath : List Char) (names : List (List Char))
    (caps : List (List Char)) : List (List Char × ParamVal) :=
  (List.range names.length).map (fun i =>
    let param := names.getD i []
    let value := caps.getD i []
    if hasSubstr ('*' :: param) routePath then
      (param, ParamVal.arr ((splitOnChar '/' value).filter (fun s => decide (s ≠ []))))
    else
      (param, ParamVal.str value))

/-- `RouteMatcher.match` (route-utils lines 333–356): first registered
route whose compiled pattern matches wins; `null` (here `none`) is the
NotFound result. -/
def rmMatch (routes : List RMEntry) (path : List Char) : Option MatchResult :=
  match routes with
  | [] => none
  | e :: rest =>
    match rmatch e.regex path with
    | some caps => some ⟨e.path, buildParams e.path e.params caps⟩
    | none => rmMatch rest path

/-- The fields of `RouteInfo` (file-router lines 22–31) that registration
and ordering observe; `handler` is an opaque reference, the remaining
fields (`filePath`, `middleware`, `params`, `isDynamic`) do not influence
the routing table order or identity. -/
structure RouteInfo where
  path : List Char
  method : List Char
  handlerRef : Nat
  priority : Int
deriving DecidableEq, Repr

/-- Stable insertion of a route into a list sorted by descending priority:
the inserted route goes before the first route of priority not above its
own.  `Array.prototype.sort` is specified stable, so the unique stable
order for the comparator `(a, b) => b.priority - a.priority` (file-router
lines 88–90) is produced by this insertion. -/
def insertRoute (x : RouteInfo) : List RouteInfo → List RouteInfo
  | [] => [x]
  | y :: ys => if y.priority ≤ x.priority then x :: y :: ys else y :: insertRoute x ys

/-- The routing-table sort of `BHRFileRouter.scan` (file-router lines
87–90): stable sort by descending `priority`. -/
def sortRoutes : List RouteInfo → List RouteInfo
  | [] => []
  | x :: xs => insertRoute x (sortRoutes xs)

/-- JavaScript `Map.prototype.set` on an insertion-ordered association
list: an existing key keeps its position and takes the new value, a new
key is appended. -/
def mapSet {β : Type} (m : List (List Char × β)) (k : List Char) (v : β) :
    List (List Char × β) :=
  if m.any (fun e => e.1 == k) then
    m.map (fun e => if e.1 == k then (k, v) else e)
  else
    m ++ [(k, v)]

/-- JavaScript `Map.prototype.get`. -/
def mapGet {β : Type} (m : List (List Char × β)) (k : List Char) : Option β :=
  (m.find? (fun e => e.1 == k)).map (fun e => e.2)

/-- The registration step of `BHRFileRouter.processApiRoute` (file-router
lines 196–208) for one exported method: build the `RouteInfo` (with the
priority computed by `calculatePriority`) and `routes.set` it under the
key `` `${method}:${routePath}` ``. -/
def registerApiRoute (routes : List (List Char × RouteInfo))
    (method routePath : List Char) (handlerRef : Nat) :
    List (List Char × RouteInfo) :=
  mapSet routes (method ++ ':' :: routePath)
    ⟨routePath, method, handlerRef, calculatePriorityL routePath⟩

/-- `BHRFileRouter.getMiddlewareForPath` (file-router lines 469–480):
walk the middleware map in insertion order and concatenate the lists of
every entry whose key is a literal string prefix of the route path. -/
def getMiddlewareForPath (middleware : List (List Char × List Nat))
    (routePath : List Char) : List Nat :=
  middleware.foldl
    (fun acc e => if e.1.isPrefixOf routePath then acc ++ e.2 else acc) []

/-- An abstract canonical-pattern segment: the segment classification that
the specificity scorer observes (static literal, dynamic parameter,
catch-all parameter). -/
inductive CanonSeg
  | static (lit : List Char)
  | dyn (name : List Char)
  | catchAll (name : List Char)
deriving DecidableEq, Repr

/-- Rendering of a canonical segment, as produced by `filePathToRoute`. -/
def renderCanon : CanonSeg → List Char
  | CanonSeg.static l => l
  | CanonSeg.dyn n => ':' :: n
  | CanonSeg.catchAll n => '*' :: n

/-- The canonical pattern of a segment list: `/` plus the rendered
segments joined with `/`. -/
def canonPattern (segs : List CanonSeg) : List Char :=
  '/' :: joinSep ['/'] (segs.map renderCanon)

/-- Well-formedness of a canonical segment: a static literal is nonempty
and free of the separator and the two marker characters; a parameter name
is free of them. -/
def goodCanonSeg : CanonSeg → Prop
  | CanonSeg.static l => l ≠ [] ∧ '/' ∉ l ∧ ':' ∉ l ∧ '*' ∉ l
  | CanonSeg.dyn n => '/' ∉ n ∧ ':' ∉ n ∧ '*' ∉ n
  | CanonSeg.catchAll n => '/' ∉ n ∧ ':' ∉ n ∧ '*' ∉ n

instance (s : CanonSeg) : Decidable (goodCanonSeg s) := by
  cases s <;> simp [goodCanonSeg] <;> infer_instance

/-- The number of dynamic segments of a canonical segment list. -/
def dynN (segs : List CanonSeg) : Nat :=
  segs.countP (fun s => match s with | CanonSeg.dyn _ => true | _ => false)

/-- The number of catch-all segments of a canonical segment list. -/
def catchN (segs : List CanonSeg) : Nat :=
  segs.countP (fun s => match s with | CanonSeg.catchAll _ => true | _ => false)

/-- The non-group segments of a parsed specification — the URL-visible
part that `filePathToRoute` renders. -/
def nonGroupSegs (fp : List Char) : List RouteSegment :=
  (parseFilePathL fp).segments.filter (fun s => decide (s.type ≠ SegType.group))

theorem splitOnChar_ne_nil (c : Char) (s : List Char) : splitOnChar c s ≠ [] := by
  cases s with
  | nil => simp [splitOnChar]
  | cons d ds =>
    show (match splitOnChar c ds with
      | [] => [[]]
      | r :: rs => if d = c then [] :: r :: rs else (d :: r) :: rs) ≠ []
    rcases splitOnChar c ds with _ | ⟨r, rs⟩
    · simp
    · by_cases hd : d = c <;> simp [hd]

theorem splitOnChar_cons_eq (c d : Char) (ds : List Char) :
    splitOnChar c (d :: ds) =
      match splitOnChar c ds with
      | [] => [[]]
      | r :: rs => if d = c then [] :: r :: rs else (d :: r) :: rs := rfl

theorem splitOnChar_sep (c : Char) (ds : List Char) :
    splitOnChar c (c :: ds) = [] :: splitOnChar c ds := by
  rw [splitOnChar_cons_eq]
  rcases h : splitOnChar c ds with _ | ⟨r, rs⟩
  · exact absurd h (splitOnChar_ne_nil c ds)
  · simp

theorem splitOnChar_cons_ne (c d : Char) (ds : List Char) (hd : d ≠ c)
    {r : List Char} {rs : List (List Char)} (h : splitOnChar c ds = r :: rs) :
    splitOnChar c (d :: ds) = (d :: r) :: rs := by
  rw [splitOnChar_cons_eq, h]
  simp [hd]

theorem splitOnChar_no_sep (c : Char) (s : List Char) (h : c ∉ s) :
    splitOnChar c s = [s] := by
  induction s with
  | nil => rfl
  | cons d ds ih =>
    have hd : d ≠ c := by
      rintro rfl
      exact h (List.mem_cons_self d ds)
    have hds : c ∉ ds := fun hm => h (List.mem_cons_of_mem _ hm)
    exact splitOnChar_cons_ne c d ds hd (ih hds)

theorem splitOnChar_append_sep (c : Char) (l r : List Char) (h : c ∉ l) :
    splitOnChar c (l ++ c :: r) = l :: splitOnChar c r := by
  induction l with
  | nil => simpa using splitOnChar_sep c r
  | cons d ds ih =>
    have hd : d ≠ c := by
      rintro rfl
      exact h (List.mem_cons_self d ds)
    have hds : c ∉ ds := fun hm => h (List.mem_cons_of_mem _ hm)
    simpa using splitOnChar_cons_ne c d (ds ++ c :: r) hd (ih hds)

theorem mem_splitOnChar (c : Char) (s t : List Char)
    (ht : t ∈ splitOnChar c s) : c ∉ t := by
  induction s generalizing t with
  | nil =>
    simp [splitOnChar] at ht
    subst ht
    simp
  | cons d ds ih =>
    rw [splitOnChar_cons_eq] at ht
    rcases h : splitOnChar c ds with _ | ⟨r, rs⟩
    · exact absurd h (splitOnChar_ne_nil c ds)
    · rw [h] at ht
      by_cases hd : d = c
      · simp only [if_pos hd] at ht
        rcases List.mem_cons.mp ht with rfl | ht2
        · simp
        · exact ih t (h ▸ ht2)
      · simp only [if_neg hd] at ht
        rcases List.mem_cons.mp ht with rfl | ht2
        · intro hc
          rcases List.mem_cons.mp hc with rfl | hc2
          · exact hd rfl
          · exact ih r (h ▸ List.mem_cons_self r rs) hc2
        · exact ih t (h ▸ List.mem_cons_of_mem r ht2)

theorem joinSep_cons_cons (sep p q : List Char) (rest : List (List Char)) :
    joinSep sep (p :: q :: rest) = p ++ sep ++ joinSep sep (q :: rest) := rfl

theorem splitOnChar_joinSep (c : Char) (pieces : List (List Char))
    (hne : pieces ≠ []) (h : ∀ p ∈ pieces, c ∉ p) :
    splitOnChar c (joinSep [c] pieces) = pieces := by
  induction pieces with
  | nil => exact absurd rfl hne
  | cons p rest ih =>
    cases rest with
    | nil => exact splitOnChar_no_sep c p (h p (List.mem_cons_self p []))
    | cons q rest' =>
      rw [joinSep_cons_cons]
      have he : p ++ [c] ++ joinSep [c] (q :: rest') = p ++ c :: joinSep [c] (q :: rest') := by
        simp
      rw [he, splitOnChar_append_sep c _ _ (h p (List.mem_cons_self p _)),
        ih (by simp) (fun x hx => h x (List.mem_cons_of_mem _ hx))]

theorem count_joinSep (c s : Char) (hcs : c ≠ s) (pieces : List (List Char)) :
    (joinSep [s] pieces).count c = (pieces.map (List.count c)).sum := by
  induction pieces with
  | nil => rfl
  | cons p rest ih =>
    cases rest with
    | nil => simp [joinSep]
    | cons q rest' =>
      rw [joinSep_cons_cons]
      have hsc : (s == c) = false := by
        simp [beq_eq_false_iff_ne]
        exact fun he => hcs he.symm
      simp [List.count_append, List.count_cons, ih, hsc]

theorem renderCanon_ne_nil (s : CanonSeg) (h : goodCanonSeg s) :
    renderCanon s ≠ [] := by
  cases s with
  | static l => exact h.1
  | dyn n => simp [renderCanon]
  | catchAll n => simp [renderCanon]

theorem renderCanon_no_slash (s : CanonSeg) (h : goodCanonSeg s) :
    '/' ∉ renderCanon s := by
  cases s with
  | static l => exact h.2.1
  | dyn n =>
    simp [renderCanon]
    exact fun he => absurd he h.1
  | catchAll n =>
    simp [renderCanon]
    exact fun he => absurd he h.1

theorem count_colon_renderCanon (s : CanonSeg) (h : goodCanonSeg s) :
    (renderCanon s).count ':' =
      (match s with | CanonSeg.dyn _ => 1 | _ => 0) := by
  cases s with
  | static l =>
    simpa [renderCanon] using List.count_eq_zero.mpr h.2.2.1
  | dyn n =>
    have : n.count ':' = 0 := List.count_eq_zero.mpr h.2.1
    simp [renderCanon, List.count_cons, this]
  | catchAll n =>
    have : n.count ':' = 0 := List.count_eq_zero.mpr h.2.1
    simp [renderCanon, List.count_cons, this]

theorem count_star_renderCanon (s : CanonSeg) (h : goodCanonSeg s) :
    (renderCanon s).count '*' =
      (match s with | CanonSeg.catchAll _ => 1 | _ => 0) := by
  cases s with
  | static l =>
    simpa [renderCanon] using List.count_eq_zero.mpr h.2.2.2
  | dyn n =>
    have : n.count '*' = 0 := List.count_eq_zero.mpr h.2.2
    simp [renderCanon, List.count_cons, this]
  | catchAll n =>
    have : n.count '*' = 0 := List.count_eq_zero.mpr h.2.2
    simp [renderCanon, List.count_cons, this]

theorem sum_count_colon (segs : List CanonSeg)
    (h : ∀ s ∈ segs, goodCanonSeg s) :
    ((segs.map renderCanon).map (List.count ':')).sum = dynN segs := by
  induction segs with
  | nil => rfl
  | cons a rest ih =>
    have ha := h a (List.mem_cons_self a rest)
    have hr := fun x hx => h x (List.mem_cons_of_mem a hx)
    simp only [List.map_cons, List.sum_cons, ih hr,
      count_colon_renderCanon a ha]
    cases a <;> simp [dynN, List.countP_cons]
    omega

theorem sum_count_star (segs : List CanonSeg)
    (h : ∀ s ∈ segs, goodCanonSeg s) :
    ((segs.map renderCanon).map (List.count '*')).sum = catchN segs := by
  induction segs with
  | nil => rfl
  | cons a rest ih =>
    have ha := h a (List.mem_cons_self a rest)
    have hr := fun x hx => h x (List.mem_cons_of_mem a hx)
    simp only [List.map_cons, List.sum_cons, ih hr,
      count_star_renderCanon a ha]
    cases a <;> simp [catchN, List.countP_cons]
    omega

theorem count_colon_canonPattern (segs : List CanonSeg)
    (h : ∀ s ∈ segs, goodCanonSeg s) :
    (canonPattern segs).count ':' = dynN segs := by
  unfold canonPattern
  have h0 : (('/' : Char) == ':') = false := by decide
  rw [List.count_cons, count_joinSep ':' '/' (by decide), h0]
  have hs := sum_count_colon segs h
  rw [List.map_map] at hs
  simp [hs]

theorem count_star_canonPattern (segs : List CanonSeg)
    (h : ∀ s ∈ segs, goodCanonSeg s) :
    (canonPattern segs).count '*' = catchN segs := by
  unfold canonPattern
  have h0 : (('/' : Char) == '*') = false := by decide
  rw [List.count_cons, count_joinSep '*' '/' (by decide), h0]
  have hs := sum_count_star segs h
  rw [List.map_map] at hs
  simp [hs]

theorem splitOnChar_canonPattern (segs : List CanonSeg)
    (h : ∀ s ∈ segs, goodCanonSeg s) (hne : segs ≠ []) :
    splitOnChar '/' (canonPattern segs) = [] :: segs.map renderCanon := by
  unfold canonPattern
  rw [splitOnChar_sep]
  rw [splitOnChar_joinSep '/' _ (by simpa using hne)]
  intro p hp
  rcases List.mem_map.mp hp with ⟨s, hs, rfl⟩
  exact renderCanon_no_slash s (h s hs)

theorem canonScores (segs : List CanonSeg)
    (h : ∀ s ∈ segs, goodCanonSeg s) (hne : segs ≠ []) :
    calculateRoutePriorityL (canonPattern segs)
      = 1000 + 10 * (segs.length : Int) - 100 * (dynN segs : Int)
        - 200 * (catchN segs : Int)
    ∧ calculatePriorityL (canonPattern segs)
      = 1000 + 10 * ((segs.length : Int) + 1)
        - 100 * ((dynN segs : Int) + (catchN segs : Int)) := by
  have hsplit := splitOnChar_canonPattern segs h hne
  have hcolon := count_colon_canonPattern segs h
  have hstar := count_star_canonPattern segs h
  have hfilter : (splitOnChar '/' (canonPattern segs)).filter
      (fun s => decide (s ≠ [])) = segs.map renderCanon := by
    rw [hsplit]
    have h1 : (([] :: segs.map renderCanon).filter (fun s => decide (s ≠ [])))
        = (segs.map renderCanon).filter (fun s => decide (s ≠ [])) := by
      simp
    rw [h1]
    exact List.filter_eq_self.mpr (fun a ha => by
      rcases List.mem_map.mp ha with ⟨s, hs, rfl⟩
      simpa using renderCanon_ne_nil s (h s hs))
  constructor
  · unfold calculateRoutePriorityL
    rw [hfilter, hcolon, hstar, List.length_map]
  · unfold calculatePriorityL
    rw [hsplit, hcolon, hstar]
    simp only [List.length_cons, List.length_map]
    push_cast
    ring

theorem foldl_parseStep (toks : List (List Char)) (acc : ParsedRoute) :
    (toks.foldl parseStep acc).segments
      = acc.segments ++ toks.map classifySegment
    ∧ (toks.foldl parseStep acc).params
      = acc.params ++ (toks.map classifySegment).filterMap paramOfSeg := by
  induction toks generalizing acc with
  | nil => simp
  | cons t rest ih =>
    rcases ih (parseStep acc t) with ⟨h1, h2⟩
    constructor
    · rw [List.foldl_cons, h1]
      simp [parseStep]
    · rw [List.foldl_cons, h2]
      simp only [List.map_cons, List.filterMap_cons]
      cases hp : paramOfSeg (classifySegment t) with
      | none => simp [parseStep, hp]
      | some v => simp [parseStep, hp]

theorem parseFilePathL_segments (fp : List Char) :
    (parseFilePathL fp).segments
      = ((splitOnChar '/' (cleanPath fp)).filter
          (fun s => decide (s ≠ []))).map classifySegment := by
  unfold parseFilePathL
  simpa using (foldl_parseStep _ ⟨[], [], false, false⟩).1

theorem parseFilePathL_params (fp : List Char) :
    (parseFilePathL fp).params
      = (parseFilePathL fp).segments.filterMap paramOfSeg := by
  unfold parseFilePathL
  rcases foldl_parseStep ((splitOnChar '/' (cleanPath fp)).filter
    (fun s => decide (s ≠ []))) ⟨[], [], false, false⟩ with ⟨h1, h2⟩
  rw [h1, h2]
  simp

theorem token_facts (fp : List Char) (t : List Char)
    (ht : t ∈ (splitOnChar '/' (cleanPath fp)).filter (fun s => decide (s ≠ []))) :
    t ≠ [] ∧ '/' ∉ t := by
  rcases List.mem_filter.mp ht with ⟨hmem, hkeep⟩
  refine ⟨by simpa using hkeep, mem_splitOnChar '/' _ t hmem⟩

theorem renderSeg_classify (t : List Char) (h1 : t ≠ []) (h2 : '/' ∉ t)
    (h3 : (classifySegment t).type ≠ SegType.group) :
    renderSeg (classifySegment t) ≠ [] ∧ '/' ∉ renderSeg (classifySegment t) := by
  unfold classifySegment at h3 ⊢
  by_cases hg : ['('].isPrefixOf t ∧ [')'].isSuffixOf t
  · rw [if_pos hg] at h3
    exact absurd rfl h3
  · rw [if_neg hg] at h3 ⊢
    by_cases hb : ['['].isPrefixOf t ∧ [']'].isSuffixOf t
    · rw [if_pos hb] at h3 ⊢
      by_cases hd : ['.', '.', '.'].isPrefixOf ((t.drop 1).dropLast)
      · rw [if_pos hd]
        refine ⟨by simp [renderSeg], ?_⟩
        simp only [renderSeg, Option.getD_some]
        intro hmem
        rcases List.mem_cons.mp hmem with he | hmem2
        · exact absurd he.symm (by decide)
        · exact h2 (List.drop_subset 1 t
            (List.dropLast_subset _ (List.drop_subset 3 _ hmem2)))
      · rw [if_neg hd]
        refine ⟨by simp [renderSeg], ?_⟩
        simp only [renderSeg, Option.getD_some]
        intro hmem
        rcases List.mem_cons.mp hmem with he | hmem2
        · exact absurd he.symm (by decide)
        · exact h2 (List.drop_subset 1 t (List.dropLast_subset _ hmem2))
    · rw [if_neg hb]
      exact ⟨by simpa [renderSeg] using h1, by simpa [renderSeg] using h2⟩

theorem joinSep_concat (pieces : List (List Char)) (hne : pieces ≠ [])
    (h : ∀ p ∈ pieces, p ≠ [] ∧ '/' ∉ p) :
    ∃ c0 t, c0 ≠ '/' ∧ joinSep ['/'] pieces = t ++ [c0] := by
  induction pieces with
  | nil => exact absurd rfl hne
  | cons p rest ih =>
    cases rest with
    | nil =>
      rcases h p (List.mem_cons_self p []) with ⟨hp1, hp2⟩
      refine ⟨p.getLast hp1, p.dropLast, ?_, ?_⟩
      · intro he
        exact hp2 (he ▸ List.getLast_mem hp1)
      · rw [List.dropLast_append_getLast hp1]
        rfl
    | cons q rest' =>
      rcases ih (by simp) (fun x hx => h x (List.mem_cons_of_mem p hx))
        with ⟨c0, t, hc0, hj⟩
      refine ⟨c0, p ++ ['/'] ++ t, hc0, ?_⟩
      rw [joinSep_cons_cons, hj]
      simp

theorem nonGroup_render_good (fp : List Char) :
    ∀ p ∈ (nonGroupSegs fp).map renderSeg, p ≠ [] ∧ '/' ∉ p := by
  intro p hpm
  rcases List.mem_map.mp hpm with ⟨s, hs, rfl⟩
  simp only [nonGroupSegs] at hs
  rcases List.mem_filter.mp hs with ⟨hsm, hsk⟩
  have hseg := parseFilePathL_segments fp
  have hsm2 : s ∈ ((splitOnChar '/' (cleanPath fp)).filter
      (fun x => decide (x ≠ []))).map classifySegment := hseg ▸ hsm
  rcases List.mem_map.mp hsm2 with ⟨t, htm, rfl⟩
  rcases token_facts fp t htm with ⟨h1, h2⟩
  exact renderSeg_classify t h1 h2 (by simpa using hsk)

theorem filePathToRouteL_join (fp : List Char) :
    filePathToRouteL fp
      = '/' :: joinSep ['/'] ((nonGroupSegs fp).map renderSeg) := by
  have hdef : filePathToRouteL fp =
      (if ('/' :: joinSep ['/'] ((nonGroupSegs fp).map renderSeg)) = ['/']
        then ['/']
        else stripTrailingSlash
          ('/' :: joinSep ['/'] ((nonGroupSegs fp).map renderSeg))) := rfl
  rw [hdef]
  by_cases hnil : (nonGroupSegs fp).map renderSeg = []
  · rw [hnil]
    simp [joinSep]
  · rcases joinSep_concat _ hnil (nonGroup_render_good fp) with ⟨c0, t, hc0, hj⟩
    rw [hj]
    have hne2 : ('/' :: (t ++ [c0])) ≠ ['/'] := by simp
    rw [if_neg hne2]
    unfold stripTrailingSlash
    have hsuf : (['/'].isSuffixOf ('/' :: (t ++ [c0]))) = false := by
      rw [Bool.eq_false_iff]
      intro habs
      rcases List.isSuffixOf_iff_suffix.mp habs with ⟨u, hu⟩
      have hl : ('/' :: (t ++ [c0])).getLast? = some '/' := by
        rw [← hu]
        exact List.getLast?_concat u
      have hr : (('/' :: t) ++ [c0]).getLast? = some c0 := List.getLast?_concat _
      rw [show ('/' :: (t ++ [c0])) = ('/' :: t) ++ [c0] by simp] at hl
      rw [hl] at hr
      exact hc0 (Option.some.inj hr).symm
    rw [hsuf]
    simp

theorem filePathToRouteL_no_trailing (fp : List Char)
    (hne : nonGroupSegs fp ≠ []) :
    (['/'].isSuffixOf (filePathToRouteL fp)) = false := by
  rw [filePathToRouteL_join fp]
  rcases joinSep_concat _ (by simpa using hne) (nonGroup_render_good fp)
    with ⟨c0, t, hc0, hj⟩
  rw [hj, Bool.eq_false_iff]
  intro habs
  rcases List.isSuffixOf_iff_suffix.mp habs with ⟨u, hu⟩
  have hl : ('/' :: (t ++ [c0])).getLast? = some '/' := by
    rw [← hu]
    exact List.getLast?_concat u
  have hr : (('/' :: t) ++ [c0]).getLast? = some c0 := List.getLast?_concat _
  rw [show ('/' :: (t ++ [c0])) = ('/' :: t) ++ [c0] by simp] at hl
  rw [hl] at hr
  exact hc0 (Option.some.inj hr).symm

theorem mem_insertRoute (x z : RouteInfo) (l : List RouteInfo)
    (h : z ∈ insertRoute x l) : z = x ∨ z ∈ l := by
  induction l with
  | nil =>
    simp [insertRoute] at h
    exact Or.inl h
  | cons y ys ih =>
    unfold insertRoute at h
    by_cases hc : y.priority ≤ x.priority
    · rw [if_pos hc] at h
      rcases List.mem_cons.mp h with rfl | h2
      · exact Or.inl rfl
      · exact Or.inr h2
    · rw [if_neg hc] at h
      rcases List.mem_cons.mp h with rfl | h2
      · exact Or.inr (List.mem_cons_self z ys)
      · rcases ih h2 with rfl | h3
        · exact Or.inl rfl
        · exact Or.inr (List.mem_cons_of_mem y h3)

theorem insertRoute_sorted (x : RouteInfo) (l : List RouteInfo)
    (h : l.Pairwise (fun a b => b.priority ≤ a.priority)) :
    (insertRoute x l).Pairwise (fun a b => b.priority ≤ a.priority) := by
  induction l with
  | nil => simp [insertRoute]
  | cons y ys ih =>
    unfold insertRoute
    by_cases hc : y.priority ≤ x.priority
    · rw [if_pos hc]
      refine List.pairwise_cons.mpr ⟨?_, h⟩
      intro z hz
      rcases List.mem_cons.mp hz with rfl | h2
      · exact hc
      · exact le_trans ((List.pairwise_cons.mp h).1 z h2) hc
    · rw [if_neg hc]
      rcases List.pairwise_cons.mp h with ⟨hy, hys⟩
      refine List.pairwise_cons.mpr ⟨?_, ih hys⟩
      intro z hz
      rcases mem_insertRoute x z ys hz with rfl | h2
      · exact le_of_not_le hc
      · exact hy z h2

theorem sortRoutes_sorted (l : List RouteInfo) :
    (sortRoutes l).Pairwise (fun a b => b.priority ≤ a.priority) := by
  induction l with
  | nil => simp [sortRoutes]
  | cons x xs ih => exact insertRoute_sorted x (sortRoutes xs) ih

theorem filter_insertRoute (k : Int) (x : RouteInfo) (l : List RouteInfo) :
    (insertRoute x l).filter (fun r => decide (r.priority = k))
      = if x.priority = k
        then x :: l.filter (fun r => decide (r.priority = k))
        else l.filter (fun r => decide (r.priority = k)) := by
  induction l with
  | nil =>
    by_cases hx : x.priority = k <;> simp [insertRoute, hx]
  | cons y ys ih =>
    unfold insertRoute
    by_cases hc : y.priority ≤ x.priority
    · rw [if_pos hc]
      by_cases hx : x.priority = k <;> simp [List.filter_cons, hx]
    · rw [if_neg hc]
      have hxy : x.priority < y.priority := lt_of_not_le hc
      by_cases hx : x.priority = k
      · have hy : y.priority ≠ k := by
          intro he
          rw [he, hx] at hxy
          exact lt_irrefl k hxy
        rw [if_pos hx]
        rw [List.filter_cons, List.filter_cons]
        simp only [hy, decide_eq_true_eq, if_neg]
        rw [ih, if_pos hx]
        simp [hy]
      · rw [if_neg hx]
        rw [List.filter_cons, List.filter_cons]
        rw [ih, if_neg hx]

theorem sortRoutes_filter (k : Int) (l : List RouteInfo) :
    (sortRoutes l).filter (fun r => decide (r.priority = k))
      = l.filter (fun r => decide (r.priority = k)) := by
  induction l with
  | nil => rfl
  | cons x xs ih =>
    unfold sortRoutes
    rw [filter_insertRoute k x (sortRoutes xs), List.filter_cons]
    by_cases hx : x.priority = k
    · rw [if_pos hx, ih]
      simp [hx]
    · rw [if_neg hx, ih]
      simp [hx]

theorem mapSet_mapSet {β : Type} (m : List (List Char × β)) (k : List Char)
    (v1 v2 : β) : mapSet (mapSet m k v1) k v2 = mapSet m k v2 := by
  unfold mapSet
  by_cases h : m.any (fun e => e.1 == k)
  · rw [if_pos h]
    have hany : (m.map (fun e => if e.1 == k then (k, v1) else e)).any
        (fun e => e.1 == k) = true := by
      rw [List.any_map]
      rcases List.any_eq_true.mp h with ⟨e, he, hek⟩
      have hk := beq_iff_eq.mp hek
      refine List.any_eq_true.mpr ⟨e, he, ?_⟩
      simp [Function.comp, hek, hk]
    rw [if_pos hany, if_pos h, List.map_map]
    refine List.map_congr_left ?_
    intro e _
    by_cases hek : (e.1 == k) = true
    · have hk := beq_iff_eq.mp hek
      simp [Function.comp, hek, hk]
    · simp [Function.comp, hek]
  · rw [if_neg h]
    have hall := List.any_eq_false.mp (Bool.eq_false_iff.mpr h)
    have hany : ((m ++ [(k, v1)]).any (fun e => e.1 == k)) = true :=
      List.any_eq_true.mpr ⟨(k, v1), by simp, by simp⟩
    rw [if_pos hany, if_neg h, List.map_append]
    have hm : m.map (fun e => if e.1 == k then (k, v2) else e) = m.map id :=
      List.map_congr_left (fun e he => by simp [hall e he])
    rw [hm, List.map_id]
    simp

theorem find?_map_replace {β : Type} (m : List (List Char × β)) (k : List Char)
    (v : β) (h : m.any (fun e => e.1 == k) = true) :
    (m.map (fun e => if e.1 == k then (k, v) else e)).find?
      (fun e => e.1 == k) = some (k, v) := by
  induction m with
  | nil => simp at h
  | cons e m' ih =>
    by_cases hek : (e.1 == k) = true
    · simp only [List.map_cons, if_pos hek]
      exact List.find?_cons_of_pos _ (by simp)
    · have h' : m'.any (fun x => x.1 == k) = true := by
        rcases List.any_eq_true.mp h with ⟨x, hx, hxk⟩
        rcases List.mem_cons.mp hx with rfl | hx2
        · exact absurd hxk hek
        · exact List.any_eq_true.mpr ⟨x, hx2, hxk⟩
      have hf : (e.1 == k) = false := by simpa using hek
      have hmap : ((e :: m').map (fun x => if x.1 == k then (k, v) else x))
          = e :: m'.map (fun x => if x.1 == k then (k, v) else x) := by
        rw [List.map_cons, if_neg hek]
      rw [hmap, List.find?_cons, hf]
      exact ih h'

theorem mapGet_mapSet {β : Type} (m : List (List Char × β)) (k : List Char)
    (v : β) : mapGet (mapSet m k v) k = some v := by
  unfold mapGet mapSet
  by_cases h : m.any (fun e => e.1 == k)
  · rw [if_pos h, find?_map_replace m k v h]
    simp
  · rw [if_neg h]
    have hall := List.any_eq_false.mp (Bool.eq_false_iff.mpr h)
    rw [List.find?_append]
    have hnone : m.find? (fun e => e.1 == k) = none :=
      List.find?_eq_none.mpr (fun x hx => by simp [hall x hx])
    rw [hnone]
    simp

theorem countP_map_replace {β : Type} (m : List (List Char × β)) (k : List Char)
    (v : β) (h : m.any (fun e => e.1 == k) = true)
    (hnd : (m.map Prod.fst).Nodup) :
    (m.map (fun e => if e.1 == k then (k, v) else e)).countP
      (fun e => e.1 == k) = 1 := by
  induction m with
  | nil => simp at h
  | cons e m' ih =>
    rcases List.nodup_cons.mp hnd with ⟨hkey, hnd'⟩
    by_cases hek : (e.1 == k) = true
    · have hk := beq_iff_eq.mp hek
      simp only [List.map_cons, if_pos hek, List.countP_cons]
      rw [if_pos (by simp)]
      have hz : (m'.map (fun x => if x.1 == k then (k, v) else x)).countP
          (fun x => x.1 == k) = 0 := by
        rw [List.countP_eq_zero]
        intro x hx
        rcases List.mem_map.mp hx with ⟨y, hy, rfl⟩
        have hyk : (y.1 == k) = false := by
          rw [beq_eq_false_iff_ne]
          intro he
          exact hkey (hk ▸ he ▸ List.mem_map.mpr ⟨y, hy, rfl⟩)
        rw [if_neg (by simp [hyk])]
        simp [hyk]
      rw [hz]
    · have h' : m'.any (fun x => x.1 == k) = true := by
        rcases List.any_eq_true.mp h with ⟨x, hx, hxk⟩
        rcases List.mem_cons.mp hx with rfl | hx2
        · exact absurd hxk hek
        · exact List.any_eq_true.mpr ⟨x, hx2, hxk⟩
      have hf : (e.1 == k) = false := by simpa using hek
      simp only [List.map_cons, if_neg hek, List.countP_cons, hf,
        Bool.false_eq_true, if_false, Nat.add_zero]
      exact ih h' hnd'

theorem countP_mapSet {β : Type} (m : List (List Char × β)) (k : List Char)
    (v : β) (hnd : (m.map Prod.fst).Nodup) :
    (mapSet m k v).countP (fun e => e.1 == k) = 1 := by
  unfold mapSet
  by_cases h : m.any (fun e => e.1 == k)
  · rw [if_pos h]
    exact countP_map_replace m k v h hnd
  · rw [if_neg h]
    have hall := List.any_eq_false.mp (Bool.eq_false_iff.mpr h)
    rw [List.countP_append]
    have hz : m.countP (fun e => e.1 == k) = 0 :=
      List.countP_eq_zero.mpr (fun x hx => by simp [hall x hx])
    rw [hz]
    simp [List.countP_cons]

theorem getMiddlewareForPath_foldl (route : List Char)
    (bindings : List (List Char × List Nat)) (acc : List Nat) :
    bindings.foldl
        (fun acc e => if e.1.isPrefixOf route then acc ++ e.2 else acc) acc
      = acc ++ ((bindings.filter (fun b => b.1.isPrefixOf route)).map
          Prod.snd).flatten := by
  induction bindings generalizing acc with
  | nil => simp
  | cons b rest ih =>
    rw [List.foldl_cons, List.filter_cons]
    by_cases hb : (b.1.isPrefixOf route) = true
    · rw [if_pos hb, if_pos hb, ih]
      simp
    · rw [if_neg (by simp [hb]), if_neg hb, ih]

/-- C1 counterexample: the claim asserts the score formula
1000 + 10·segments − 100·dynamic − 200·catchAll for every canonical
pattern, but the file router's `calculatePriority` gives "/users"
(one static segment) the score 1020, not the formula value 1010 —
`route.split("/").length` counts the empty part before the leading
slash.  `calculateRoutePriority` does return 1010. -/
theorem claim1_counterexample :
    calculatePriorityL "/users".data ≠ 1000 + 10 * 1 - 100 * 0 - 200 * 0
    ∧ calculatePriorityL "/users".data = 1020
    ∧ calculateRoutePriorityL "/users".data = 1010 := by
  refine ⟨by decide, by decide, by decide⟩

/-- C1 (amended): for every well-formed nonempty canonical segment list,
`calculateRoutePriority` of the rendered pattern is exactly
1000 + 10·segments − 100·dynamic − 200·catchAll, while the file router's
`calculatePriority` instead gives 1000 + 10·(segments + 1)
− 100·(dynamic + catchAll). -/
theorem claim1_priority_formula (segs : List CanonSeg)
    (h : ∀ s ∈ segs, goodCanonSeg s) (hne : segs ≠ []) :
    calculateRoutePriorityL (canonPattern segs)
      = 1000 + 10 * (segs.length : Int) - 100 * (dynN segs : Int)
        - 200 * (catchN segs : Int)
    ∧ calculatePriorityL (canonPattern segs)
      = 1000 + 10 * ((segs.length : Int) + 1)
        - 100 * ((dynN segs : Int) + (catchN segs : Int)) :=
  canonScores segs h hne

/-- C1 witness: the formula evaluated on the one-segment pattern "/users". -/
theorem claim1_priority_formula_witness :
    (∀ s ∈ [CanonSeg.static "users".data], goodCanonSeg s)
    ∧ ([CanonSeg.static "users".data] ≠ [])
    ∧ calculateRoutePriorityL (canonPattern [CanonSeg.static "users".data])
      = 1010 := by
  refine ⟨by decide, by decide, ?_⟩
  have h := claim1_priority_formula [CanonSeg.static "users".data]
    (by decide) (by decide)
  rw [h.1]
  decide

/-- C2 counterexample: the two scorers disagree on the canonical pattern
"/files/*slug": `calculateRoutePriority` gives 820, the file router's
`calculatePriority` gives 930. -/
theorem claim2_counterexample :
    calculateRoutePriorityL "/files/*slug".data = 820
    ∧ calculatePriorityL "/files/*slug".data = 930
    ∧ calculateRoutePriorityL "/files/*slug".data
      ≠ calculatePriorityL "/files/*slug".data := by
  refine ⟨by decide, by decide, by decide⟩

/-- C2 (amended): the two scorers are not equal; on every well-formed
nonempty canonical pattern the file router's `calculatePriority` exceeds
`calculateRoutePriority` by exactly 10 plus 100 per catch-all segment. -/
theorem claim2_scorers_differ (segs : List CanonSeg)
    (h : ∀ s ∈ segs, goodCanonSeg s) (hne : segs ≠ []) :
    calculatePriorityL (canonPattern segs)
      = calculateRoutePriorityL (canonPattern segs)
        + 10 + 100 * (catchN segs : Int) := by
  rcases canonScores segs h hne with ⟨h1, h2⟩
  rw [h1, h2]
  ring

/-- C2 witness: the offset evaluated on the pattern "/files/*slug". -/
theorem claim2_scorers_differ_witness :
    (∀ s ∈ [CanonSeg.static "files".data, CanonSeg.catchAll "slug".data],
      goodCanonSeg s)
    ∧ ([CanonSeg.static "files".data, CanonSeg.catchAll "slug".data] ≠ [])
    ∧ calculatePriorityL
        (canonPattern [CanonSeg.static "files".data,
          CanonSeg.catchAll "slug".data])
      = calculateRoutePriorityL
          (canonPattern [CanonSeg.static "files".data,
            CanonSeg.catchAll "slug".data])
        + 10 + 100 * ((catchN [CanonSeg.static "files".data,
            CanonSeg.catchAll "slug".data] : Nat) : Int) :=
  ⟨by decide, by decide,
    claim2_scorers_differ
      [CanonSeg.static "files".data, CanonSeg.catchAll "slug".data]
      (by decide) (by decide)⟩

/-- C3 counterexample: the routing-table sort has no lexicographic
tie-break.  Two equal-priority routes registered as "/b" then "/a" stay
in the order "/b", "/a" after sorting, although "/a" is lexicographically
smaller — the candidate order for ties depends on registration order. -/
theorem claim3_counterexample :
    sortRoutes [⟨"/b".data, "GET".data, 0, calculatePriorityL "/b".data⟩,
        ⟨"/a".data, "GET".data, 1, calculatePriorityL "/a".data⟩]
      = [⟨"/b".data, "GET".data, 0, calculatePriorityL "/b".data⟩,
        ⟨"/a".data, "GET".data, 1, calculatePriorityL "/a".data⟩]
    ∧ calculatePriorityL "/b".data = calculatePriorityL "/a".data
    ∧ "/a".data < "/b".data := by
  refine ⟨by decide, by decide, by decide⟩

/-- C3 (amended): the table sort orders by descending priority only; it is
stable, so routes of equal priority keep their registration order (for
every priority value, filtering the sorted table to that priority returns
the registrations in their original order). -/
theorem claim3_sort_order (l : List RouteInfo) (k : Int) :
    (sortRoutes l).Pairwise (fun a b => b.priority ≤ a.priority)
    ∧ (sortRoutes l).filter (fun r => decide (r.priority = k))
      = l.filter (fun r => decide (r.priority = k)) :=
  ⟨sortRoutes_sorted l, sortRoutes_filter k l⟩

/-- C4: the specification "files/[...slug]" compiles to the pattern
"/files/*slug"; matching "/files/a/b/c" succeeds binding slug to the
ordered list ["a", "b", "c"]; matching "/files" is NotFound (the
catch-all needs at least one remaining request segment). -/
theorem claim4_catchall_match :
    filePathToRouteL "files/[...slug]".data = "/files/*slug".data
    ∧ rmMatch [addRoute (filePathToRouteL "files/[...slug]".data)]
        "/files/a/b/c".data
      = some ⟨"/files/*slug".data,
          [("slug".data, ParamVal.arr ["a".data, "b".data, "c".data])]⟩
    ∧ rmMatch [addRoute (filePathToRouteL "files/[...slug]".data)]
        "/files".data = none := by
  refine ⟨by decide, by decide, by decide⟩

/-- C5 counterexample: the file router's `convertFilePathToRoute` does not
elide a group at the start of the relative path — its group pattern
requires a preceding slash — so "(group)/dashboard" compiles to
"/(group)/dashboard", not "/dashboard". -/
theorem claim5_counterexample :
    convertFilePathToRouteL "(group)/dashboard".data
      = "/(group)/dashboard".data
    ∧ convertFilePathToRouteL "(group)/dashboard".data
      ≠ "/dashboard".data := by
  refine ⟨by decide, by decide⟩

/-- C5 (amended): `filePathToRoute` elides the group, yielding
"/dashboard", and matching "/dashboard" succeeds; the file router's
`convertFilePathToRoute` only elides a group that is preceded by a slash,
as in "admin/(group)/dashboard". -/
theorem claim5_group_elision :
    filePathToRouteL "(group)/dashboard".data = "/dashboard".data
    ∧ rmMatch [addRoute (filePathToRouteL "(group)/dashboard".data)]
        "/dashboard".data
      = some ⟨"/dashboard".data, []⟩
    ∧ convertFilePathToRouteL "admin/(group)/dashboard".data
      = "/admin/dashboard".data := by
  refine ⟨by decide, by decide, by decide⟩

/-- C6 counterexample: the file router's `convertFilePathToRoute` renders
a catch-all in the parameter form, not the wildcard form: its
`[param] → :param` rule runs first and consumes "[...slug]" whole, so the
wildcard rule never fires and "files/[...slug]" compiles to
"/files/:...slug". -/
theorem claim6_counterexample :
    convertFilePathToRouteL "files/[...slug]".data = "/files/:...slug".data
    ∧ convertFilePathToRouteL "files/[...slug]".data
      ≠ "/files/*slug".data := by
  refine ⟨by decide, by decide⟩

/-- C6 (amended): `filePathToRoute` satisfies the canonical-pattern
contract — the pattern is "/" followed by the non-group segments rendered
(static literal, ":name", "*name") and joined with "/"; an empty segment
list yields "/"; a nonempty one never ends in a separator.  The file
router's `convertFilePathToRoute` deviates as the counterexample shows. -/
theorem claim6_canonical_pattern (fp : List Char) :
    filePathToRouteL fp
      = '/' :: joinSep ['/'] ((nonGroupSegs fp).map renderSeg)
    ∧ (nonGroupSegs fp = [] → filePathToRouteL fp = ['/'])
    ∧ (nonGroupSegs fp ≠ []
        → (['/'].isSuffixOf (filePathToRouteL fp)) = false) := by
  refine ⟨filePathToRouteL_join fp, ?_, filePathToRouteL_no_trailing fp⟩
  intro h
  rw [filePathToRouteL_join fp, h]
  rfl

/-- C6 witness: the contract evaluated on "docs/[...path]/page.tsx"
(nonempty, no trailing separator) and on "(g)/page.tsx" (all segments
grouped, root pattern). -/
theorem claim6_canonical_pattern_witness :
    (nonGroupSegs "docs/[...path]/page.tsx".data ≠ [])
    ∧ (['/'].isSuffixOf
        (filePathToRouteL "docs/[...path]/page.tsx".data)) = false
    ∧ nonGroupSegs "(g)/page.tsx".data = []
    ∧ filePathToRouteL "(g)/page.tsx".data = ['/'] :=
  ⟨by decide,
    (claim6_canonical_pattern ("docs/[...path]/page.tsx".data)).2.2 (by decide),
    by decide,
    (claim6_canonical_pattern ("(g)/page.tsx".data)).2.1 (by decide)⟩

/-- C7 counterexample: `parseFilePath` never raises any error.  A
catch-all marker without a name ("[...]") parses to a wildcard segment
with the empty parameter name, a dynamic marker without a name ("[]")
parses to a dynamic segment with the empty name, and a duplicate
parameter name ("[id]/[id]") is returned twice — no InvalidSpecification
failure exists in the code. -/
theorem claim7_counterexample :
    parseFilePathL "[id]/[id]".data
      = ⟨[⟨SegType.dynamic, "[id]".data, some "id".data⟩,
          ⟨SegType.dynamic, "[id]".data, some "id".data⟩],
        ["id".data, "id".data], true, false⟩
    ∧ parseFilePathL "[...]".data
      = ⟨[⟨SegType.wildcard, "[...]".data, some []⟩], [[]], true, true⟩
    ∧ parseFilePathL "[]".data
      = ⟨[⟨SegType.dynamic, "[]".data, some []⟩], [[]], true, false⟩ := by
  refine ⟨by decide, by decide, by decide⟩

/-- C7 (amended): `parseFilePath` is total and performs no validation: on
every input it returns the segment list, and its params list is exactly
the parameter names of the dynamic and catch-all segments in order,
duplicates and empty names included. -/
theorem claim7_parse_total (fp : List Char) :
    (parseFilePathL fp).params
      = (parseFilePathL fp).segments.filterMap paramOfSeg :=
  parseFilePathL_params fp

/-- C8: registering the same (method, pattern) key twice with different
handler references raises no error; the second registration replaces the
first (the double registration equals the single second registration),
the key resolves to the second handler, and the table holds exactly one
entry under the key. -/
theorem claim8_last_write_wins (routes : List (List Char × RouteInfo))
    (method routePath : List Char) (h1 h2 : Nat)
    (hnd : (routes.map Prod.fst).Nodup) (hne : h1 ≠ h2) :
    registerApiRoute (registerApiRoute routes method routePath h1)
        method routePath h2
      = registerApiRoute routes method routePath h2
    ∧ mapGet (registerApiRoute (registerApiRoute routes method routePath h1)
        method routePath h2) (method ++ ':' :: routePath)
      = some ⟨routePath, method, h2, calculatePriorityL routePath⟩
    ∧ (registerApiRoute (registerApiRoute routes method routePath h1)
        method routePath h2).countP
          (fun e => e.1 == method ++ ':' :: routePath) = 1 := by
  have _ := hne
  unfold registerApiRoute
  refine ⟨mapSet_mapSet routes (method ++ ':' :: routePath) _ _, ?_, ?_⟩
  · rw [mapSet_mapSet routes (method ++ ':' :: routePath) _ _]
    exact mapGet_mapSet routes (method ++ ':' :: routePath) _
  · rw [mapSet_mapSet routes (method ++ ':' :: routePath) _ _]
    exact countP_mapSet routes (method ++ ':' :: routePath) _ hnd

/-- C8 witness: double registration of GET /users with handlers 0 then 1
resolves to handler 1. -/
theorem claim8_last_write_wins_witness :
    ((([] : List (List Char × RouteInfo)).map Prod.fst).Nodup)
    ∧ ((0 : Nat) ≠ 1)
    ∧ mapGet (registerApiRoute
        (registerApiRoute [] "GET".data "/users".data 0)
        "GET".data "/users".data 1) ("GET".data ++ ':' :: "/users".data)
      = some ⟨"/users".data, "GET".data, 1,
          calculatePriorityL "/users".data⟩ :=
  ⟨by decide, by decide,
    (claim8_last_write_wins [] "GET".data "/users".data 0 1
      (by decide) (by decide)).2.1⟩

/-- C9: the applicable middleware for a route is the concatenation, in
binding registration order and without deduplication, of the lists of
exactly those bindings whose path prefix is a literal string prefix of
the route; in particular the prefix "/user" applies to "/users", and a
middleware referenced by two matching bindings appears twice. -/
theorem claim9_middleware_scope (bindings : List (List Char × List Nat))
    (route : List Char) :
    getMiddlewareForPath bindings route
      = ((bindings.filter (fun b => b.1.isPrefixOf route)).map
          Prod.snd).flatten
    ∧ getMiddlewareForPath [("/user".data, [7])] "/users".data = [7]
    ∧ getMiddlewareForPath [("/".data, [5]), ("/u".data, [5])]
        "/users".data = [5, 5] := by
  refine ⟨?_, by decide, by decide⟩
  unfold getMiddlewareForPath
  simpa using getMiddlewareForPath_foldl route bindings []

/-- C10: a middleware file keeps its file name in the scope key —
"users/_middleware.ts" (and "users/middleware.ts") convert to
"/users/_middleware" (resp. "/users/middleware"), since only the
page/route/index suffixes are stripped — and the binding applies only to
route paths that literally start with that key, so it never applies to
the sibling route "/users/new". -/
theorem claim10_middleware_key (mwList : List Nat) (route : List Char)
    (h : ("/users/_middleware".data.isPrefixOf route) = false) :
    convertFilePathToRouteL "users/_middleware.ts".data
      = "/users/_middleware".data
    ∧ convertFilePathToRouteL "users/middleware.ts".data
      = "/users/middleware".data
    ∧ getMiddlewareForPath [("/users/_middleware".data, mwList)] route
      = [] := by
  refine ⟨by decide, by decide, ?_⟩
  unfold getMiddlewareForPath
  rw [List.foldl_cons, h]
  simp

/-- C10 witness: a middleware scoped at "/users/_middleware" does not
apply to "/users/new". -/
theorem claim10_middleware_key_witness :
    ("/users/_middleware".data.isPrefixOf "/users/new".data) = false
    ∧ getMiddlewareForPath [("/users/_middleware".data, [3])]
        "/users/new".data = [] :=
  ⟨by decide,
    (claim10_middleware_key [3] "/users/new".data (by decide)).2.2⟩
